import Mathlib

/-!
Shallow embedding of `scripts/lookup.py` (model-lookup CLI).

The source is a single Python file with:
* `fetch_models` — cached catalog fetch (1-hour TTL);
* `to_native_id` — aggregator-ID → provider-native-ID translation;
* `score_match` / `search` — fuzzy scoring and top-8 ranking;
* `list_provider` — prefix filter over the catalog;
* `main` — CLI argument handling and exit status.

Python floats in the scoring code are modelled exactly with `ℚ`; Python's
stable `list.sort(key=..., reverse=True)` is modelled by Mathlib's stable
`List.insertionSort` on the score-descending relation (stable sorts are
extensionally unique, so any stable sort models `list.sort` faithfully).
-/

namespace ModelLookup

/-- A catalog entry, with the fields the claimed functions read:
`model["id"]`, `model.get("name", "")`, `model.get("created", 0)`. -/
structure Model where
  id : String
  name : String
  created : Int
deriving DecidableEq

/-- Python `str.lower()` (ASCII range, which `Char.toLower` mirrors). -/
def lowerStr (s : String) : String :=
  String.mk (s.toList.map Char.toLower)

/-- Python substring test on char lists: `needle` occurs contiguously in `hay`. -/
def subList (needle : List Char) : List Char → Bool
  | [] => needle.isPrefixOf ([] : List Char)
  | c :: t => needle.isPrefixOf (c :: t) || subList needle t

/-- Python `needle in hay` for strings. -/
def pyIn (needle hay : String) : Bool :=
  subList needle.toList hay.toList

/-- Python `s.startswith(p)`. -/
def pyStarts (s p : String) : Bool :=
  p.toList.isPrefixOf s.toList

/-- Python `s.partition("/")` restricted to the two pieces the source uses:
the part before the first `/` and the part after it (empty when there is
no `/`, exactly as `partition` yields). -/
def splitSlash : List Char → List Char × List Char
  | [] => ([], [])
  | c :: cs =>
    if c = '/' then ([], cs)
    else
      let p := splitSlash cs
      (c :: p.1, p.2)

/-- Scanner state for the embedding of `re.sub(r"(\d+)\.(\d+)", r"\1-\2", s)`:
`scan` is the top-level scan; `run1 acc` holds the digits of a candidate
first group (reversed); `copy2` copies the digits of the second group after
a replacement. -/
inductive SubSt where
  | scan : SubSt
  | run1 : List Char → SubSt
  | copy2 : SubSt

/-- One-char-at-a-time embedding of Python's left-to-right, non-overlapping
`re.sub(r"(\d+)\.(\d+)", r"\1-\2", s)` scan: a match is a maximal digit run,
a dot, and a following digit run; the dot of a match becomes a dash, and
scanning resumes after the match's second digit run. -/
def subRun : SubSt → List Char → List Char
  | .scan, [] => []
  | .run1 acc, [] => acc.reverse
  | .copy2, [] => []
  | .scan, c :: cs =>
    if c.isDigit then subRun (.run1 [c]) cs else c :: subRun .scan cs
  | .run1 acc, c :: cs =>
    if c.isDigit then subRun (.run1 (c :: acc)) cs
    else if c = '.' then
      match cs with
      | d :: _ =>
        if d.isDigit then acc.reverse ++ '-' :: subRun .copy2 cs
        else acc.reverse ++ '.' :: subRun .scan cs
      | [] => acc.reverse ++ ['.']
    else acc.reverse ++ c :: subRun .scan cs
  | .copy2, c :: cs =>
    if c.isDigit then c :: subRun .copy2 cs else c :: subRun .scan cs

/-- `re.sub(r"(\d+)\.(\d+)", r"\1-\2", s)` as used in `to_native_id`. -/
def dotSub (cs : List Char) : List Char :=
  subRun .scan cs

/-- `to_native_id` from the source: split at the first `/`; for provider
`anthropic`, rewrite version dots to dashes and truncate at the first `:`
(`model_part.split(":")[0]`); otherwise return the remainder unchanged. -/
def to_native_id (openrouter_id : String) : String :=
  let parts := splitSlash openrouter_id.toList
  if parts.1 = "anthropic".toList then
    String.mk ((dotSub parts.2).takeWhile (fun c => c != ':'))
  else
    String.mk parts.2

/-- `score_match` from the source, with Python float arithmetic carried out
exactly in `ℚ`: +10 per term occurring in the lowered id, +5 per term in the
lowered name, `created / 1e12` when `created` is truthy, −3 when the lowered
id contains `":free"`. -/
def score_match (query_terms : List String) (m : Model) : ℚ :=
  let model_id := lowerStr m.id
  let model_name := lowerStr m.name
  let base : ℚ := (query_terms.map (fun term =>
    (if pyIn (lowerStr term) model_id then (10 : ℚ) else 0) +
    (if pyIn (lowerStr term) model_name then (5 : ℚ) else 0))).sum
  let boosted : ℚ :=
    base + (if m.created ≠ 0 then (m.created : ℚ) / 10 ^ 12 else 0)
  boosted - (if pyIn ":free" model_id then (3 : ℚ) else 0)

/-- The ordering used by `scored.sort(key=lambda x: x[0], reverse=True)`:
score-descending on the first component. -/
def scoreOrd (a b : ℚ × Model) : Prop := b.1 ≤ a.1

instance : DecidableRel scoreOrd :=
  fun a b => inferInstanceAs (Decidable (b.1 ≤ a.1))

instance : IsTotal (ℚ × Model) scoreOrd :=
  ⟨fun a b => le_total b.1 a.1⟩

instance : IsTrans (ℚ × Model) scoreOrd :=
  ⟨fun _ _ _ h1 h2 => le_trans h2 h1⟩

/-- `search` from the source: score every model, keep strictly positive
scores, stable-sort descending by score, return the models of the first 8
entries. -/
def search (query_terms : List String) (models : List Model) : List Model :=
  let scored := models.map (fun m => (score_match query_terms m, m))
  let positive := scored.filter (fun p => decide (0 < p.1))
  let ranked := List.insertionSort scoreOrd positive
  (ranked.take 8).map (fun p => p.2)

/-- The `PROVIDER_PREFIXES` table from the source. -/
def PROVIDER_PREFIXES : List (String × String) :=
  [("google", "google/"), ("openai", "openai/"), ("anthropic", "anthropic/"),
   ("deepseek", "deepseek/"), ("meta-llama", "meta-llama/"),
   ("mistralai", "mistralai/"), ("cohere", "cohere/"), ("qwen", "qwen/"),
   ("x-ai", "x-ai/")]

/-- `PROVIDER_PREFIXES.get(provider, f"{provider}/")` from `list_provider`. -/
def providerPfx (provider : String) : String :=
  (PROVIDER_PREFIXES.lookup provider).getD (provider ++ "/")

/-- `list_provider` from the source. -/
def list_provider (provider : String) (models : List Model) : List Model :=
  models.filter (fun m => pyStarts m.id (providerPfx provider))

/-- The environment `fetch_models` consults: whether the cache file exists,
the current time, the cache file's modification time and (deserialized)
content, and what the remote endpoint would return. -/
structure FetchEnv where
  cacheExists : Bool
  now : ℚ
  mtime : ℚ
  cacheContent : List Model
  remoteData : List Model

/-- The observable outcome of one `fetch_models` call: the returned list,
whether the network was accessed, and what (if anything) was written to the
cache file. -/
structure FetchResult where
  models : List Model
  networkAccessed : Bool
  cacheWritten : Option (List Model)
deriving DecidableEq

/-- `CACHE_TTL = 3600` from the source. -/
def CACHE_TTL : ℚ := 3600

/-- `fetch_models` from the source, as a function of its environment: with a
cache file younger than the TTL it deserializes and returns the cache and
touches nothing else; otherwise it fetches, writes the cache and returns the
remote data. -/
def fetch_models (env : FetchEnv) : FetchResult :=
  if env.cacheExists ∧ env.now - env.mtime < CACHE_TTL then
    ⟨env.cacheContent, false, none⟩
  else
    ⟨env.remoteData, true, some env.remoteData⟩

/-- The results the CLI prints for a given `sys.argv` (element 0 is the
program name, as in Python) and catalog: none on bad usage, the provider
listing in `--list` mode (provider defaulting to `"google"`), the search
results otherwise. -/
def cliResults (argv : List String) (models : List Model) : List Model :=
  if argv.length < 2 then []
  else if argv.get? 1 = some "--list" then
    list_provider ((argv.get? 2).getD "google") models
  else
    search (argv.drop 1) models

/-- The exit status of `main` as a function of `sys.argv` and the fetched
catalog, mirroring the source's `sys.exit(1)` calls and implicit exit 0. -/
def mainExit (argv : List String) (models : List Model) : Nat :=
  if argv.length < 2 then 1
  else if argv.get? 1 = some "--list" then
    if list_provider ((argv.get? 2).getD "google") models = [] then 1 else 0
  else
    if search (argv.drop 1) models = [] then 1 else 0

/-- The intermediate sorted list of `(score, model)` pairs built inside
`search`, before the top-8 truncation and the projection to models. -/
def rankedPairs (query_terms : List String) (models : List Model) :
    List (ℚ × Model) :=
  List.insertionSort scoreOrd
    ((models.map (fun m => (score_match query_terms m, m))).filter
      (fun p => decide (0 < p.1)))

/-- The unprocessed accumulator chars carried by a scanner state. -/
def stAcc : SubSt → List Char
  | .run1 acc => acc
  | _ => []

/-- Decidable check for a `<digit>.<digit>` pattern somewhere in a string's
characters (the core of a `<digits>.<digits>` substring). -/
def hasDotVer : List Char → Bool
  | a :: b :: c :: rest => (a.isDigit && b == '.' && c.isDigit) || hasDotVer (b :: c :: rest)
  | _ => false

/-- C2, formula as claimed: the case-folded term is tested against the raw
aggregator ID and the raw display name, the creation timestamp is always
divided by `10^12`, and the penalty fires when the raw ID contains
`":free"`. Stated from the claim's words, to compare with `score_match`. -/
def claimScoreRaw (query_terms : List String) (m : Model) : ℚ :=
  (query_terms.map (fun term =>
    (if pyIn (lowerStr term) m.id then (10 : ℚ) else 0) +
    (if pyIn (lowerStr term) m.name then (5 : ℚ) else 0))).sum +
  (m.created : ℚ) / 10 ^ 12 -
  (if pyIn ":free" m.id then (3 : ℚ) else 0)

/-- C2 as amended: the same formula, but every substring test is against the
case-folded ID and name, because the code lowercases both sides of every
comparison. -/
def claimScoreFolded (query_terms : List String) (m : Model) : ℚ :=
  (query_terms.map (fun term =>
    (if pyIn (lowerStr term) (lowerStr m.id) then (10 : ℚ) else 0) +
    (if pyIn (lowerStr term) (lowerStr m.name) then (5 : ℚ) else 0))).sum +
  (m.created : ℚ) / 10 ^ 12 -
  (if pyIn ":free" (lowerStr m.id) then (3 : ℚ) else 0)

/-- The creation boost `if created: score += created / 1e12` adds
`created / 10^12` unconditionally, because the guarded-out case adds `0`
and `0 / 10^12 = 0`. -/
theorem created_boost_eq (c : ℤ) :
    (if c ≠ 0 then (c : ℚ) / 10 ^ 12 else 0) = (c : ℚ) / 10 ^ 12 := by
  by_cases h : c = 0 <;> simp [h]

/-- C4: `to_native_id` maps the three documented example inputs to the
documented outputs. -/
theorem to_native_id_examples :
    to_native_id "google/gemini-2.5-flash" = "gemini-2.5-flash" ∧
    to_native_id "anthropic/claude-sonnet-4.6" = "claude-sonnet-4-6" ∧
    to_native_id "anthropic/claude-3.5-sonnet:thinking" = "claude-3-5-sonnet" := by
  exact ⟨by decide, by decide, by decide⟩

/-- C1: when the cache file exists and its age (current time minus
modification time) is strictly below 3600 seconds, `fetch_models` returns
exactly the deserialized cache content, accesses no network, and writes
nothing. -/
theorem fetch_models_cache_fresh (env : FetchEnv)
    (hex : env.cacheExists = true) (hage : env.now - env.mtime < 3600) :
    fetch_models env = ⟨env.cacheContent, false, none⟩ := by
  have hc : env.cacheExists ∧ env.now - env.mtime < CACHE_TTL :=
    ⟨by simp [hex], by simpa [CACHE_TTL] using hage⟩
  simp only [fetch_models, if_pos hc]

/-- Concrete instance of C1: a cache written at time 0 and read at time 100
is served without network access. -/
theorem fetch_models_cache_fresh_witness :
    fetch_models ⟨true, 100, 0, [⟨"m", "", 0⟩], []⟩ =
      ⟨[⟨"m", "", 0⟩], false, none⟩ :=
  fetch_models_cache_fresh ⟨true, 100, 0, [⟨"m", "", 0⟩], []⟩ rfl (by norm_num)

/-- C2 fails as stated: on a model whose ID contains an uppercase letter,
the code's score (which case-folds the ID) differs from the claimed formula
(which tests the folded term against the raw ID). -/
theorem score_match_ne_claim_raw :
    score_match ["a"] ⟨"A", "", 0⟩ ≠ claimScoreRaw ["a"] ⟨"A", "", 0⟩ := by
  with_unfolding_all decide

/-- C2 as amended: the match score equals the claimed sum-of-terms formula
once every substring test is taken against the case-folded ID and name. -/
theorem score_match_eq_claim_folded (query_terms : List String) (m : Model) :
    score_match query_terms m = claimScoreFolded query_terms m := by
  unfold score_match claimScoreFolded
  rw [created_boost_eq]

/-- `List.isPrefixOf` holds exactly when the second list extends the
first. -/
theorem isPrefixOf_iff_exists :
    ∀ (l1 l2 : List Char), l1.isPrefixOf l2 = true ↔ ∃ t, l1 ++ t = l2
  | [], l2 => by simp [List.isPrefixOf]
  | a :: as, [] => by simp [List.isPrefixOf]
  | a :: as, b :: bs => by
    simp only [List.isPrefixOf, Bool.and_eq_true, beq_iff_eq,
      isPrefixOf_iff_exists as bs, List.cons_append, List.cons.injEq]
    constructor
    · rintro ⟨rfl, t, rfl⟩
      exact ⟨t, rfl, rfl⟩
    · rintro ⟨t, rfl, rfl⟩
      exact ⟨rfl, t, rfl⟩

/-- C8: `list_provider` keeps catalog order (it yields a sublist of the
catalog), and a record is returned exactly when its aggregator ID starts
with the prefix string looked up for the key (defaulting to `key ++ "/"`);
in particular for the key `"google"` the prefix is `"google/"`. -/
theorem list_provider_characterization (provider : String) (models : List Model) :
    (list_provider provider models).Sublist models ∧
    (∀ m : Model, m ∈ list_provider provider models ↔
      m ∈ models ∧ ∃ rest : List Char,
        m.id.toList = (providerPfx provider).toList ++ rest) ∧
    (∀ m : Model, m ∈ list_provider "google" models ↔
      m ∈ models ∧ ∃ rest : List Char,
        m.id.toList = "google/".toList ++ rest) := by
  have key : ∀ (p : String) (m : Model),
      m ∈ list_provider p models ↔
        m ∈ models ∧ ∃ rest : List Char,
          m.id.toList = (providerPfx p).toList ++ rest := by
    intro p m
    rw [list_provider, List.mem_filter]
    constructor
    · rintro ⟨hm, hpre⟩
      obtain ⟨t, ht⟩ := (isPrefixOf_iff_exists _ _).mp hpre
      exact ⟨hm, t, ht.symm⟩
    · rintro ⟨hm, t, ht⟩
      exact ⟨hm, (isPrefixOf_iff_exists _ _).mpr ⟨t, ht.symm⟩⟩
  refine ⟨List.filter_sublist _, key provider, ?_⟩
  have hg : providerPfx "google" = "google/" := by decide
  intro m
  rw [key "google" m, hg]

/-- C9: the exit status is 0 exactly when the invocation produces at least
one result, and 1 exactly when the usage is malformed (fewer than one
argument after the program name), the requested provider listing is empty,
or the search yields no match. -/
theorem mainExit_spec (argv : List String) (models : List Model) :
    (mainExit argv models = 0 ↔ cliResults argv models ≠ []) ∧
    (mainExit argv models = 1 ↔
      (argv.length < 2 ∨
       (2 ≤ argv.length ∧ argv.get? 1 = some "--list" ∧
         list_provider ((argv.get? 2).getD "google") models = []) ∨
       (2 ≤ argv.length ∧ argv.get? 1 ≠ some "--list" ∧
         search (argv.drop 1) models = []))) := by
  unfold mainExit cliResults
  split_ifs with h1 h2 h3 h4
  · simp [h1]
  · simp only [List.get?_eq_getElem?] at h2 h3
    simp [h1, h2, h3, Nat.le_of_not_lt h1]
  · simp only [List.get?_eq_getElem?] at h2 h3
    simp [h1, h2, h3, Nat.le_of_not_lt h1]
  · simp only [List.get?_eq_getElem?] at h2
    simp only [List.drop_one] at h4
    simp [h1, h2, h4, Nat.le_of_not_lt h1]
  · simp only [List.get?_eq_getElem?] at h2
    simp only [List.drop_one] at h4
    simp [h1, h2, h4, Nat.le_of_not_lt h1]

/-- Every model returned by `search` comes from the catalog and has a
strictly positive computed score. -/
theorem mem_search_imp {query_terms : List String} {models : List Model}
    {m : Model} (h : m ∈ search query_terms models) :
    m ∈ models ∧ 0 < score_match query_terms m := by
  simp only [search] at h
  obtain ⟨p, hp, rfl⟩ := List.mem_map.mp h
  have hp1 : p ∈ List.insertionSort scoreOrd
      ((models.map (fun m => (score_match query_terms m, m))).filter
        (fun p => decide (0 < p.1))) := List.take_subset _ _ hp
  have hp2 := ((List.perm_insertionSort scoreOrd _).mem_iff).mp hp1
  obtain ⟨hmem, hpos⟩ := List.mem_filter.mp hp2
  obtain ⟨m0, hm0, hpe⟩ := List.mem_map.mp hmem
  cases hpe
  exact ⟨hm0, of_decide_eq_true hpos⟩

/-- C3: `search` returns at most 8 records, and every returned record has a
strictly positive computed score. -/
theorem search_short_and_positive (query_terms : List String)
    (models : List Model) :
    (search query_terms models).length ≤ 8 ∧
    ∀ m ∈ search query_terms models, 0 < score_match query_terms m := by
  constructor
  · simp only [search, List.length_map]
    exact List.length_take_le 8 _
  · intro m hm
    exact (mem_search_imp hm).2

/-- Concrete instance of C3: a one-model catalog where the query term hits
the ID. -/
theorem search_short_and_positive_witness :
    (search ["a"] [⟨"a", "", 0⟩]).length ≤ 8 ∧
      0 < score_match ["a"] ⟨"a", "", 0⟩ :=
  ⟨(search_short_and_positive ["a"] [⟨"a", "", 0⟩]).1,
   (search_short_and_positive ["a"] [⟨"a", "", 0⟩]).2 ⟨"a", "", 0⟩
     (by with_unfolding_all decide)⟩

/-- C10 fails as stated: this model's raw aggregator ID does not contain
`":free"` and its creation timestamp is positive, yet its computed score is
negative (the code tests the marker against the lowercased ID, which does
contain it), so a catalog holding only this model yields an empty search. -/
theorem search_nonempty_claim_cex :
    pyIn ":free" (Model.mk "a:FREE" "" 1).id = false ∧
    0 < (Model.mk "a:FREE" "" 1).created ∧
    score_match [] (Model.mk "a:FREE" "" 1) < 0 ∧
    search [] [Model.mk "a:FREE" "" 1] = [] := by
  with_unfolding_all decide

/-- C10 as amended: for any query, a model whose case-folded aggregator ID
does not contain `":free"` and whose creation timestamp is positive scores
strictly positively; consequently `search` never returns the empty list on
a catalog containing such a model. -/
theorem score_pos_and_search_nonempty :
    (∀ (query_terms : List String) (m : Model),
      pyIn ":free" (lowerStr m.id) = false → 0 < m.created →
      0 < score_match query_terms m) ∧
    (∀ (query_terms : List String) (models : List Model) (m : Model),
      m ∈ models → pyIn ":free" (lowerStr m.id) = false → 0 < m.created →
      search query_terms models ≠ []) := by
  have key : ∀ (query_terms : List String) (m : Model),
      pyIn ":free" (lowerStr m.id) = false → 0 < m.created →
      0 < score_match query_terms m := by
    intro terms m hfree hc
    simp only [score_match, hfree, Bool.false_eq_true, if_false, sub_zero,
      created_boost_eq]
    have hbase : 0 ≤ (terms.map (fun term =>
        (if pyIn (lowerStr term) (lowerStr m.id) then (10 : ℚ) else 0) +
        (if pyIn (lowerStr term) (lowerStr m.name) then (5 : ℚ) else 0))).sum := by
      apply List.sum_nonneg
      intro x hx
      obtain ⟨t, _, rfl⟩ := List.mem_map.mp hx
      have h1 : (0:ℚ) ≤ if pyIn (lowerStr t) (lowerStr m.id) then (10 : ℚ) else 0 := by
        split <;> norm_num
      have h2 : (0:ℚ) ≤ if pyIn (lowerStr t) (lowerStr m.name) then (5 : ℚ) else 0 := by
        split <;> norm_num
      linarith
    have hboost : 0 < (m.created : ℚ) / 10 ^ 12 := by
      apply div_pos
      · exact_mod_cast hc
      · norm_num
    linarith
  refine ⟨key, ?_⟩
  intro terms models m hm hfree hc
  have hpos := key terms m hfree hc
  have hmem : (score_match terms m, m) ∈
      (models.map fun m => (score_match terms m, m)).filter
        (fun p => decide (0 < p.1)) :=
    List.mem_filter.mpr ⟨List.mem_map.mpr ⟨m, hm, rfl⟩, decide_eq_true hpos⟩
  have hlen : 0 < ((models.map fun m => (score_match terms m, m)).filter
      (fun p => decide (0 < p.1))).length :=
    List.length_pos.mpr (List.ne_nil_of_mem hmem)
  simp only [search]
  apply List.ne_nil_of_length_pos
  rw [List.length_map, List.length_take,
    (List.perm_insertionSort scoreOrd _).length_eq]
  exact lt_min (by norm_num) hlen

/-- Concrete instance of the amended C10: an unmatched query on a catalog
with one non-free recent model still returns that model. -/
theorem score_pos_and_search_nonempty_witness :
    0 < score_match [] ⟨"x", "", 1⟩ ∧ search [] [⟨"x", "", 1⟩] ≠ [] :=
  ⟨score_pos_and_search_nonempty.1 [] ⟨"x", "", 1⟩ (by decide) (by decide),
   score_pos_and_search_nonempty.2 [] [⟨"x", "", 1⟩] ⟨"x", "", 1⟩
     (by decide) (by decide) (by decide)⟩

/-- The score depends on the catalog entry only through its id, name and
creation timestamp, and is strictly increasing in the timestamp when id and
name agree. -/
theorem score_match_lt_of_created_lt {query_terms : List String}
    {m1 m2 : Model} (hid : m1.id = m2.id) (hname : m1.name = m2.name)
    (hc : m2.created < m1.created) :
    score_match query_terms m2 < score_match query_terms m1 := by
  simp only [score_match, created_boost_eq, hid, hname]
  have hq : (m2.created : ℚ) / 10 ^ 12 < (m1.created : ℚ) / 10 ^ 12 := by
    apply (div_lt_div_iff_of_pos_right (by norm_num : (0:ℚ) < 10 ^ 12)).mpr
    exact_mod_cast hc
  linarith

theorem search_eq_rankedPairs (query_terms : List String)
    (models : List Model) :
    search query_terms models =
      ((rankedPairs query_terms models).take 8).map (fun p => p.2) := rfl

/-- Every entry of the ranked list pairs a model of the catalog with its
own strictly positive score. -/
theorem mem_rankedPairs_facts {query_terms : List String}
    {models : List Model} {p : ℚ × Model}
    (hp : p ∈ rankedPairs query_terms models) :
    p.1 = score_match query_terms p.2 ∧ p.2 ∈ models ∧ 0 < p.1 := by
  have h2 := (List.perm_insertionSort scoreOrd _).mem_iff.mp hp
  obtain ⟨hmem, hpos⟩ := List.mem_filter.mp h2
  obtain ⟨m0, hm0, hpe⟩ := List.mem_map.mp hmem
  cases hpe
  exact ⟨rfl, hm0, of_decide_eq_true hpos⟩

theorem sorted_rankedPairs (query_terms : List String)
    (models : List Model) :
    List.Pairwise scoreOrd (rankedPairs query_terms models) :=
  List.sorted_insertionSort scoreOrd _

/-- A membership witness in the ranked list always sits strictly before any
index whose entry scores strictly lower. -/
theorem rankedPairs_mem_before {query_terms : List String}
    {models : List Model} {p : ℚ × Model} {j : ℕ}
    (hp : p ∈ rankedPairs query_terms models)
    (hjr : j < (rankedPairs query_terms models).length)
    (hlt : ((rankedPairs query_terms models).get ⟨j, hjr⟩).1 < p.1) :
    ∃ i, ∃ hi : i < (rankedPairs query_terms models).length,
      i < j ∧ (rankedPairs query_terms models).get ⟨i, hi⟩ = p := by
  obtain ⟨⟨i0, hi0⟩, hgi⟩ := List.mem_iff_get.mp hp
  rcases lt_trichotomy i0 j with h | h | h
  · exact ⟨i0, hi0, h, hgi⟩
  · exfalso
    subst h
    rw [hgi] at hlt
    exact lt_irrefl _ hlt
  · exfalso
    have hrel := List.Sorted.rel_get_of_lt (sorted_rankedPairs query_terms models)
      (show (⟨j, hjr⟩ : Fin (rankedPairs query_terms models).length) < ⟨i0, hi0⟩ from h)
    rw [hgi] at hrel
    exact absurd hrel (not_le.mpr hlt)

/-- C7: `search` results are sorted by non-increasing score, and of two
catalog models identical except for the creation timestamp, the more recent
one appears no later in the result sequence (in particular it appears
whenever the older one does). -/
theorem search_sorted_and_recency :
    (∀ (query_terms : List String) (models : List Model),
      List.Sorted
        (fun a b => score_match query_terms b ≤ score_match query_terms a)
        (search query_terms models)) ∧
    (∀ (query_terms : List String) (models : List Model) (m1 m2 : Model)
      (j : ℕ) (hj : j < (search query_terms models).length),
      m1 ∈ models → m1.id = m2.id → m1.name = m2.name →
      m2.created < m1.created →
      (search query_terms models).get ⟨j, hj⟩ = m2 →
      ∃ i, ∃ hi : i < (search query_terms models).length,
        i ≤ j ∧ (search query_terms models).get ⟨i, hi⟩ = m1) := by
  constructor
  · intro terms models
    have h8 := (sorted_rankedPairs terms models).sublist (List.take_sublist 8 _)
    show List.Pairwise _ _
    rw [search_eq_rankedPairs, List.pairwise_map]
    refine h8.imp_of_mem ?_
    intro a b ha hb hr
    have hfa := mem_rankedPairs_facts (List.take_subset 8 _ ha)
    have hfb := mem_rankedPairs_facts (List.take_subset 8 _ hb)
    have hab : b.1 ≤ a.1 := hr
    rw [hfa.1, hfb.1] at hab
    exact hab
  · intro terms models m1 m2 j hj hm1 hid hname hc hget
    have hj' : j < (((rankedPairs terms models).take 8).map
        (fun p => p.2)).length := by
      rw [← search_eq_rankedPairs]
      exact hj
    have hjt : j < ((rankedPairs terms models).take 8).length := by
      rw [List.length_map] at hj'
      exact hj'
    have hjr : j < (rankedPairs terms models).length := by
      rw [List.length_take] at hjt
      exact lt_of_lt_of_le hjt (min_le_right _ _)
    have hget2 : ((rankedPairs terms models).get ⟨j, hjr⟩).2 = m2 := by
      rw [List.get_eq_getElem] at hget ⊢
      simp only [search_eq_rankedPairs, List.getElem_map, List.getElem_take] at hget
      exact hget
    rw [List.get_eq_getElem] at hget2
    have hqf := mem_rankedPairs_facts (List.getElem_mem hjr)
    have hscore2 : 0 < score_match terms m2 := by
      rw [hget2] at hqf
      exact hqf.1 ▸ hqf.2.2
    have hscorelt : score_match terms m2 < score_match terms m1 :=
      score_match_lt_of_created_lt hid hname hc
    have hp1mem : (score_match terms m1, m1) ∈ rankedPairs terms models :=
      (List.perm_insertionSort scoreOrd _).mem_iff.mpr
        (List.mem_filter.mpr ⟨List.mem_map.mpr ⟨m1, hm1, rfl⟩,
          decide_eq_true (lt_trans hscore2 hscorelt)⟩)
    have hjscore : ((rankedPairs terms models).get ⟨j, hjr⟩).1 <
        (score_match terms m1, m1).1 := by
      rw [List.get_eq_getElem, hqf.1, hget2]
      exact hscorelt
    obtain ⟨i0, hi0, hi0j, hgi⟩ := rankedPairs_mem_before hp1mem hjr hjscore
    refine ⟨i0, ?_, le_of_lt hi0j, ?_⟩
    · rw [search_eq_rankedPairs, List.length_map]
      rw [List.length_map] at hj'
      exact lt_trans hi0j hjt
    · rw [List.get_eq_getElem] at hgi
      simp only [List.get_eq_getElem, search_eq_rankedPairs, List.getElem_map,
        List.getElem_take]
      rw [hgi]

/-- Concrete instance of C7: on two otherwise identical models, the more
recent one is listed first and the older second; applying the theorem at the
older one's position recovers the newer one at an earlier index. -/
theorem search_sorted_and_recency_witness :
    List.Sorted
      (fun a b => score_match [] b ≤ score_match [] a)
      (search [] [⟨"x", "", 2⟩, ⟨"x", "", 1⟩]) ∧
    ∃ i, ∃ hi : i < (search [] [⟨"x", "", 2⟩, ⟨"x", "", 1⟩]).length,
      i ≤ 1 ∧ (search [] [⟨"x", "", 2⟩, ⟨"x", "", 1⟩]).get ⟨i, hi⟩ =
        ⟨"x", "", 2⟩ :=
  ⟨search_sorted_and_recency.1 [] [⟨"x", "", 2⟩, ⟨"x", "", 1⟩],
   search_sorted_and_recency.2 [] [⟨"x", "", 2⟩, ⟨"x", "", 1⟩]
     ⟨"x", "", 2⟩ ⟨"x", "", 1⟩ 1 (by with_unfolding_all decide)
     (by decide) rfl rfl (by decide) (by with_unfolding_all decide)⟩

/-- On input without a `/`, `partition` puts the whole string before the
separator and leaves the remainder empty. -/
theorem splitSlash_no_slash {l : List Char} (h : '/' ∉ l) :
    splitSlash l = (l, []) := by
  induction l with
  | nil => rfl
  | cons c cs ih =>
    have hc : c ≠ '/' := fun hc => h (by simp [hc])
    have hcs : '/' ∉ cs := fun hm => h (List.mem_cons_of_mem c hm)
    simp [splitSlash, hc, ih hcs]

/-- `partition` splits at the first `/`. -/
theorem splitSlash_append {a : List Char} (b : List Char) (ha : '/' ∉ a) :
    splitSlash (a ++ '/' :: b) = (a, b) := by
  induction a with
  | nil => simp [splitSlash]
  | cons c cs ih =>
    have hc : c ≠ '/' := fun hc => ha (by simp [hc])
    have hcs : '/' ∉ cs := fun hm => ha (List.mem_cons_of_mem c hm)
    simp [splitSlash, hc, ih hcs]

/-- Every character emitted by the dot-to-dash scan comes from the pending
accumulator, from the remaining input, or is the inserted dash. -/
theorem subRun_mem {x : Char} (st : SubSt) (cs : List Char)
    (hmem : x ∈ subRun st cs) : x ∈ stAcc st ∨ x ∈ cs ∨ x = '-' := by
  induction st, cs using subRun.induct
  case case4 c cs h ih =>
    simp [subRun, h] at hmem
    rcases ih hmem with hx | hx | hx <;> simp_all [stAcc]
  case case6 acc c cs h ih =>
    simp [subRun, h] at hmem
    rcases ih hmem with hx | hx | hx <;> simp_all [stAcc]
    all_goals tauto
  all_goals simp_all [subRun, stAcc]
  all_goals tauto

/-- The dot-to-dash rewrite introduces no `/`. -/
theorem dotSub_no_slash {cs : List Char} (h : '/' ∉ cs) :
    '/' ∉ dotSub cs := by
  intro hmem
  rcases subRun_mem _ _ hmem with hx | hx | hx
  · simp [stAcc] at hx
  · exact h hx
  · exact absurd hx (by decide)

theorem toList_append_slash (a b : String) :
    (a ++ "/" ++ b).toList = a.toList ++ '/' :: b.toList := by
  show ((a ++ "/") ++ b).data = a.data ++ '/' :: b.data
  rw [String.data_append (a ++ "/") b, String.data_append a "/"]
  simp

/-- The translated ID of a well-formed `provider/slug` input contains no
`/` when neither the provider nor the slug does. -/
theorem to_native_id_no_slash {prov slug : String}
    (hp : '/' ∉ prov.toList) (hs : '/' ∉ slug.toList) :
    '/' ∉ (to_native_id (prov ++ "/" ++ slug)).toList := by
  unfold to_native_id
  rw [toList_append_slash, splitSlash_append _ hp]
  dsimp only
  split
  · intro hmem
    have h1 : '/' ∈ (dotSub slug.toList).takeWhile (fun c => c != ':') := hmem
    exact dotSub_no_slash hs ((List.takeWhile_sublist _).subset h1)
  · exact hs

/-- On input with no `/` at all, `to_native_id` returns the empty string:
`partition` finds no separator and leaves the model part empty. -/
theorem to_native_id_of_no_slash {s : String} (h : '/' ∉ s.toList) :
    to_native_id s = "" := by
  unfold to_native_id
  rw [splitSlash_no_slash h]
  dsimp only
  split <;> rfl

/-- C6 fails as stated: a second application of `to_native_id` collapses a
once-translated ID to the empty string. -/
theorem to_native_id_not_idempotent :
    to_native_id (to_native_id "google/gemini-2.5-flash") ≠
      to_native_id "google/gemini-2.5-flash" := by decide

/-- C6 as amended: for a well-formed `provider/slug` whose provider and
slug contain no further `/`, applying `to_native_id` twice yields the empty
string (the second application finds no separator), so the function is not
idempotent on any such input with a nonempty translation. -/
theorem to_native_id_twice_empty (prov slug : String)
    (hp : '/' ∉ prov.toList) (hs : '/' ∉ slug.toList) :
    to_native_id (to_native_id (prov ++ "/" ++ slug)) = "" :=
  to_native_id_of_no_slash (to_native_id_no_slash hp hs)

/-- Concrete instance of the amended C6. -/
theorem to_native_id_twice_empty_witness :
    to_native_id (to_native_id ("google" ++ "/" ++ "gemini-2.5-flash")) = "" :=
  to_native_id_twice_empty "google" "gemini-2.5-flash" (by decide) (by decide)

/-- C5 fails as stated: on the chained-version slug `1.2.3` the returned
string still contains the `<digits>.<digits>` substring `2.3`, because the
regex consumes `1.2` and resumes scanning after it. -/
theorem to_native_id_dotver_cex :
    to_native_id "anthropic/claude-1.2.3" = "claude-1-2.3" ∧
    hasDotVer (to_native_id "anthropic/claude-1.2.3").toList = true := by
  exact ⟨by decide, by decide⟩

/-- C5 as amended: for the provider `anthropic`, `to_native_id` applies the
left-to-right non-overlapping dot-to-dash rewrite to the slug and then
truncates at the first `:`; chained versions can leave a
`<digits>.<digits>` substring in the output, as `1.2.3 → 1-2.3` shows. -/
theorem to_native_id_anthropic_eq :
    (∀ slug : String, to_native_id ("anthropic" ++ "/" ++ slug) =
      String.mk ((dotSub slug.toList).takeWhile (fun c => c != ':'))) ∧
    to_native_id "anthropic/1.2.3" = "1-2.3" := by
  constructor
  · intro slug
    unfold to_native_id
    rw [toList_append_slash, splitSlash_append _ (by decide)]
    dsimp only
    rw [if_pos rfl]
  · decide

end ModelLookup
